import Mathlib

/-!
Shallow embedding of the compute core of `relativity_simul`
(Particle-Mesh N-body simulation in Go).

Embedded components:
* `internal/gpu/fallback.go` — the CPU/GPU `FallbackManager` state machine
  (modes, error capture, performance-guided auto selection).
* `internal/physics` — Cloud-in-Cell mass deposition (`DepositMassToGrid`),
  the spectral Poisson solver (`SolvePoissonFFT`), force gradient
  (`CalculateGradient`), force interpolation (`InterpolateAcceleration`),
  and the drift step (`UpdatePositions`).
* `pkg/fft/fft.go` — the `CPUFFTProcessor`, which delegates to the external
  go-dsp library; its transforms are modelled from the spec as the standard
  discrete Fourier transform (forward unnormalized, inverse carrying the
  1/N factor).

Go `float64` / `float32` arithmetic is embedded as exact arithmetic: ℚ where
only field operations occur, ℝ/ℂ where π and complex exponentials occur.
Go 2D slices of fixed extent width×height are embedded as total functions on
indices; every theorem only reads indices the Go code can address.
-/

namespace RelSim

/-! ### FallbackManager (internal/gpu/fallback.go) -/

/-- `ComputeMode` from fallback.go: `ModeAuto`, `ModeCPU`, `ModeGPU`. -/
inductive ComputeMode
  | auto
  | cpu
  | gpu
deriving DecidableEq

/-- `ProcessorType` from fallback.go: `ProcessorTypeCPU`, `ProcessorTypeGPU`. -/
inductive ProcessorType
  | cpu
  | gpu
deriving DecidableEq

/-- `Stats` from fallback.go: count, total time, average time. -/
structure Stats where
  count : ℕ
  totalTime : ℚ
  averageTime : ℚ
deriving DecidableEq

/-- The mutable state of `FallbackManager` (the `sync.RWMutex` only guards
single-threaded access here; each embedded method is a pure state
transformer).  `performanceData` embeds the Go map
`map[ProcessorType][]float64`. -/
structure FallbackManager where
  mode : ComputeMode
  gpuAvailable : Bool
  hasError : Bool
  lastError : Option String
  performanceData : ProcessorType → List ℚ

/-- `NewFallbackManager`: mode Auto, GPU unavailable, empty performance map. -/
def NewFallbackManager : FallbackManager :=
  { mode := .auto
    gpuAvailable := false
    hasError := false
    lastError := none
    performanceData := fun _ => [] }

/-- `calculateStats`: count = len, total = Σ, average = total / count;
zero `Stats` for empty data. -/
def calculateStats (data : List ℚ) : Stats :=
  if data.length = 0 then ⟨0, 0, 0⟩
  else ⟨data.length, data.sum, data.sum / data.length⟩

/-- `isGPUFaster`: false when either processor type has no samples, else
strict comparison of average times. -/
def isGPUFaster (m : FallbackManager) : Bool :=
  let cpuData := m.performanceData .cpu
  let gpuData := m.performanceData .gpu
  if cpuData.length = 0 ∨ gpuData.length = 0 then false
  else decide ((calculateStats gpuData).averageTime < (calculateStats cpuData).averageTime)

/-- `GetProcessor` (the Go method returns `&Processor{Type: t}`; we return
the `ProcessorType` `t` directly). -/
def GetProcessor (m : FallbackManager) : ProcessorType :=
  match m.mode with
  | .gpu => if m.gpuAvailable ∧ ¬m.hasError then .gpu else .cpu
  | .cpu => .cpu
  | .auto => if m.gpuAvailable ∧ ¬m.hasError ∧ isGPUFaster m then .gpu else .cpu

/-- `SetMode`. -/
def SetMode (m : FallbackManager) (mode : ComputeMode) : FallbackManager :=
  { m with mode := mode }

/-- `SimulateGPUError`: sets the error flag, records the error, and flips
`ModeGPU` to `ModeCPU`. -/
def SimulateGPUError (m : FallbackManager) : FallbackManager :=
  let m1 : FallbackManager :=
    { m with hasError := true, lastError := some "simulated GPU error" }
  if m1.mode = .gpu then { m1 with mode := .cpu } else m1

/-- `ClearErrors`. -/
def ClearErrors (m : FallbackManager) : FallbackManager :=
  { m with hasError := false, lastError := none }

/-- `AttemptRecovery`: error when no GPU, otherwise clears the error state. -/
def AttemptRecovery (m : FallbackManager) : Except String FallbackManager :=
  if ¬m.gpuAvailable then .error "GPU not available"
  else .ok { m with hasError := false, lastError := none }

/-- `RecordPerformance`: append a sample for one processor type. -/
def RecordPerformance (m : FallbackManager) (pt : ProcessorType) (timeMs : ℚ) :
    FallbackManager :=
  { m with performanceData := fun p =>
      if p = pt then m.performanceData p ++ [timeMs] else m.performanceData p }

/-- One exported mutating call on a `FallbackManager` (C9 quantifies over
sequences of these). -/
inductive FMOp
  | setMode (mode : ComputeMode)
  | simulateGPUError
  | clearErrors
  | recordPerformance (pt : ProcessorType) (timeMs : ℚ)

/-- Apply one call. -/
def applyOp (m : FallbackManager) : FMOp → FallbackManager
  | .setMode md => SetMode m md
  | .simulateGPUError => SimulateGPUError m
  | .clearErrors => ClearErrors m
  | .recordPerformance pt t => RecordPerformance m pt t

/-- Run a sequence of calls on a freshly created manager. -/
def runOps (ops : List FMOp) : FallbackManager :=
  ops.foldl applyOp NewFallbackManager

/-! ### Particles and Cloud-in-Cell deposition (internal/physics) -/

/-- `Vec3` (vec3.go), components `float64`. -/
structure Vec3 where
  x : ℚ
  y : ℚ
  z : ℚ
deriving DecidableEq

/-- `Particle`: position, velocity, mass (the `Radius` field plays no role
in the embedded functions). -/
structure Particle where
  position : Vec3
  velocity : Vec3
  mass : ℚ
deriving DecidableEq

/-- Go conversion `int(x)` on a float: truncation toward zero. -/
def trunc (q : ℚ) : ℤ :=
  if 0 ≤ q then ⌊q⌋ else ⌈q⌉

/-- `gx := p.Position.X + float64(width)/2.0` in `DepositMassToGrid` /
`InterpolateAcceleration`. -/
def gridX (width : ℕ) (p : Vec3) : ℚ := p.x + (width : ℚ) / 2

/-- `gz := p.Position.Z + float64(height)/2.0`. -/
def gridZ (height : ℕ) (p : Vec3) : ℚ := p.z + (height : ℚ) / 2

/-- `i := int(gx)`. -/
def cellI (width : ℕ) (p : Vec3) : ℤ := trunc (gridX width p)

/-- `j := int(gz)`. -/
def cellJ (height : ℕ) (p : Vec3) : ℤ := trunc (gridZ height p)

/-- `fx := gx - float64(i)`. -/
def fracX (width : ℕ) (p : Vec3) : ℚ := gridX width p - (cellI width p : ℚ)

/-- `fz := gz - float64(j)`. -/
def fracZ (height : ℕ) (p : Vec3) : ℚ := gridZ height p - (cellJ height p : ℚ)

/-- The guard `i >= 0 && i < width-1 && j >= 0 && j < height-1` (Go `int`
arithmetic, so the bounds live in ℤ). -/
def inDepositRange (width height : ℕ) (p : Vec3) : Prop :=
  0 ≤ cellI width p ∧ cellI width p < (width : ℤ) - 1 ∧
  0 ≤ cellJ height p ∧ cellJ height p < (height : ℤ) - 1

instance (width height : ℕ) (p : Vec3) : Decidable (inDepositRange width height p) := by
  unfold inDepositRange
  infer_instance

/-- Body of the deposition loop of `DepositMassToGrid` for one particle:
the four `+=` writes hit the four pairwise-distinct cells
(i,j), (i+1,j), (i,j+1), (i+1,j+1), written here as indicator summands. -/
def depositParticle (width height : ℕ) (grid : ℕ → ℕ → ℚ) (p : Particle) :
    ℕ → ℕ → ℚ :=
  let i := cellI width p.position
  let j := cellJ height p.position
  let fx := fracX width p.position
  let fz := fracZ height p.position
  if inDepositRange width height p.position then
    fun a b =>
      grid a b
        + (if (a : ℤ) = i ∧ (b : ℤ) = j then p.mass * (1 - fx) * (1 - fz) else 0)
        + (if (a : ℤ) = i + 1 ∧ (b : ℤ) = j then p.mass * fx * (1 - fz) else 0)
        + (if (a : ℤ) = i ∧ (b : ℤ) = j + 1 then p.mass * (1 - fx) * fz else 0)
        + (if (a : ℤ) = i + 1 ∧ (b : ℤ) = j + 1 then p.mass * fx * fz else 0)
  else grid

/-- `DepositMassToGrid`: zero-initialized width×height grid, then one
deposition pass per particle in order. -/
def DepositMassToGrid (particles : List Particle) (width height : ℕ) :
    ℕ → ℕ → ℚ :=
  particles.foldl (depositParticle width height) (fun _ _ => 0)

/-! ### Gradient, interpolation, drift (internal/physics) -/

/-- `ForceField` struct. -/
structure ForceField where
  accelFieldX : ℕ → ℕ → ℚ
  accelFieldZ : ℕ → ℕ → ℚ
  width : ℕ
  height : ℕ

/-- `CalculateGradient`.  The Go code allocates `AccelFieldZ` with outer
length `height` (`make([][]float64, height)`) but its initialization loop
assigns `forceField.AccelFieldZ[i]` for every `i < width`; when
`height < width` the write at index `i = height` is out of range and the
program panics, modelled as `none`.  Otherwise both fields carry the
central differences with modulo (periodic) indexing; `(i-1+width)%width`
of Go `int` arithmetic equals `(i+width-1)%width` in ℕ for `i < width`. -/
def CalculateGradient (potentialGrid : ℕ → ℕ → ℚ) (width height : ℕ) :
    Option ForceField :=
  if width ≤ height then
    some
      { accelFieldX := fun i j =>
          -(potentialGrid ((i + 1) % width) j - potentialGrid ((i + width - 1) % width) j) / 2
        accelFieldZ := fun i j =>
          -(potentialGrid i ((j + 1) % height) - potentialGrid i ((j + height - 1) % height)) / 2
        width := width
        height := height }
  else none

/-- `InterpolateAcceleration`: bilinear interpolation of both acceleration
fields when the truncated cell index passes the guard
`i >= 0 && i < Width-1 && j >= 0 && j < Height-1`, and the zero pair
otherwise (`ax`, `az` stay at their zero initialization). -/
def InterpolateAcceleration (position : Vec3) (forceField : ForceField) : ℚ × ℚ :=
  let i := cellI forceField.width position
  let j := cellJ forceField.height position
  let fx := fracX forceField.width position
  let fz := fracZ forceField.height position
  if 0 ≤ i ∧ i < (forceField.width : ℤ) - 1 ∧
      0 ≤ j ∧ j < (forceField.height : ℤ) - 1 then
    let a := i.toNat
    let b := j.toNat
    let ax1 := forceField.accelFieldX a b * (1 - fz) + forceField.accelFieldX a (b + 1) * fz
    let ax2 := forceField.accelFieldX (a + 1) b * (1 - fz) + forceField.accelFieldX (a + 1) (b + 1) * fz
    let az1 := forceField.accelFieldZ a b * (1 - fz) + forceField.accelFieldZ a (b + 1) * fz
    let az2 := forceField.accelFieldZ (a + 1) b * (1 - fz) + forceField.accelFieldZ (a + 1) (b + 1) * fz
    (ax1 * (1 - fx) + ax2 * fx, az1 * (1 - fx) + az2 * fx)
  else (0, 0)

/-- Body of the `UpdatePositions` loop for one particle: drift by
`Velocity * dt`, then the two boundary checks per axis, in program order
(the second check reads the value written by the first). -/
def updateParticle (p : Particle) (dt : ℚ) (width height : ℕ) : Particle :=
  let x1 := p.position.x + p.velocity.x * dt
  let z1 := p.position.z + p.velocity.z * dt
  let x2 := if x1 > (width : ℚ) / 2 then -(width : ℚ) / 2 else x1
  let x3 := if x2 < -(width : ℚ) / 2 then (width : ℚ) / 2 else x2
  let z2 := if z1 > (height : ℚ) / 2 then -(height : ℚ) / 2 else z1
  let z3 := if z2 < -(height : ℚ) / 2 then (height : ℚ) / 2 else z2
  { p with position := { p.position with x := x3, z := z3 } }

/-- `UpdatePositions` (drift step): per-particle in-place update, embedded
as a map. -/
def UpdatePositions (particles : List Particle) (dt : ℚ) (width height : ℕ) :
    List Particle :=
  particles.map (fun p => updateParticle p dt width height)

/-! ### Discrete Fourier transforms (pkg/fft/fft.go)

`CPUFFTProcessor` delegates to the external go-dsp library, which is not
part of this repository.  Modelled from the spec: the forward transform is
the standard unnormalized DFT and the inverse transform carries the whole
1/N normalization ("1/N scaling applied exactly once, at the inverse
step"). -/

open Complex in
/-- The N-th root-of-unity power `e^{2πik/N}` used by the DFT kernels. -/
noncomputable def eRoot (N : ℕ) (k : ℤ) : ℂ :=
  Complex.exp (2 * Real.pi * Complex.I * k / N)

open Finset in
/-- Modelled from the spec: `CPUFFTProcessor.FFT1D` (go-dsp `fft.FFT`),
the unnormalized forward DFT `X[u] = Σ_i x[i]·e^{-2πi·ui/N}`. -/
noncomputable def FFT1D (N : ℕ) (x : Fin N → ℂ) : Fin N → ℂ :=
  fun u => ∑ i : Fin N, x i * eRoot N (-(u.val * i.val : ℤ))

open Finset in
/-- Modelled from the spec: `CPUFFTProcessor.IFFT1D` (go-dsp `fft.IFFT`),
the inverse DFT `x[a] = (1/N) Σ_u X[u]·e^{2πi·ua/N}` with the whole 1/N
normalization applied here. -/
noncomputable def IFFT1D (N : ℕ) (X : Fin N → ℂ) : Fin N → ℂ :=
  fun a => (1 / (N : ℂ)) * ∑ u : Fin N, X u * eRoot N ((u.val * a.val : ℤ))

open Finset in
/-- Modelled from the spec: `CPUFFTProcessor.FFT2D` (go-dsp `fft.FFT2`),
the unnormalized forward 2D DFT
`X[u][v] = Σ_i Σ_j x[i][j]·e^{-2πi(ui/W + vj/H)}`. -/
noncomputable def FFT2D (W H : ℕ) (x : Fin W → Fin H → ℂ) : Fin W → Fin H → ℂ :=
  fun u v => ∑ i : Fin W, ∑ j : Fin H,
    x i j * eRoot W (-(u.val * i.val : ℤ)) * eRoot H (-(v.val * j.val : ℤ))

open Finset in
/-- Modelled from the spec: `CPUFFTProcessor.IFFT2D` (go-dsp `fft.IFFT2`),
the inverse 2D DFT with the whole `1/(W·H)` normalization applied here. -/
noncomputable def IFFT2D (W H : ℕ) (X : Fin W → Fin H → ℂ) : Fin W → Fin H → ℂ :=
  fun a b => (1 / ((W : ℂ) * (H : ℂ))) * ∑ u : Fin W, ∑ v : Fin H,
    X u v * eRoot W ((u.val * a.val : ℤ)) * eRoot H ((v.val * b.val : ℤ))

/-! ### Spectral Poisson solver (internal/physics, SolvePoissonFFT) -/

/-- The centered wavenumber of `SolvePoissonFFT`:
`kx := float64(u); if u > width/2 { kx = float64(u - width) }` (Go integer
division in `width/2`).  The same formula produces `kz` from `v` and
`height`. -/
def waveNumber (width : ℕ) (u : ℕ) : ℤ :=
  if u > width / 2 then (u : ℤ) - (width : ℤ) else (u : ℤ)

/-- `kSquared := (kx*kxFactor)*(kx*kxFactor) + (kz*kzFactor)*(kz*kzFactor)`
with `kxFactor = 2π/width`, `kzFactor = 2π/height`. -/
noncomputable def kSquared (width height : ℕ) (u v : ℕ) : ℝ :=
  ((waveNumber width u : ℝ) * (2 * Real.pi / width)) ^ 2
    + ((waveNumber height v : ℝ) * (2 * Real.pi / height)) ^ 2

/-- The frequency-space loop of `SolvePoissonFFT`: zero the cell when
`kSquared == 0`, otherwise multiply by the real scalar
`-4π·G/kSquared`. -/
noncomputable def greenMultiply (width height : ℕ) (G : ℝ)
    (fftGrid : Fin width → Fin height → ℂ) : Fin width → Fin height → ℂ :=
  fun u v =>
    if kSquared width height u.val v.val = 0 then 0
    else fftGrid u v * (((-4) * Real.pi * G / kSquared width height u.val v.val : ℝ) : ℂ)

/-- `SolvePoissonFFT`: promote the real density grid to ℂ, forward 2D FFT,
apply the Green multiplier, inverse 2D FFT, keep the real part. -/
noncomputable def SolvePoissonFFT (width height : ℕ)
    (massGrid : Fin width → Fin height → ℝ) (gravitationalConstant : ℝ) :
    Fin width → Fin height → ℝ :=
  fun i j =>
    (IFFT2D width height
        (greenMultiply width height gravitationalConstant
          (FFT2D width height (fun a b => ((massGrid a b : ℝ) : ℂ)))) i j).re

/-! ### Root-of-unity lemmas -/

theorem eRoot_zero (N : ℕ) : eRoot N 0 = 1 := by
  simp [eRoot]

theorem eRoot_add (N : ℕ) (p q : ℤ) : eRoot N (p + q) = eRoot N p * eRoot N q := by
  unfold eRoot
  rw [← Complex.exp_add]
  congr 1
  push_cast
  ring

theorem eRoot_pow (N : ℕ) (k : ℤ) (m : ℕ) : eRoot N k ^ m = eRoot N (k * m) := by
  unfold eRoot
  rw [← Complex.exp_nat_mul]
  congr 1
  push_cast
  ring

theorem eRoot_eq_zpow (N : ℕ) (d : ℤ) :
    eRoot N d = Complex.exp (2 * Real.pi * Complex.I / N) ^ d := by
  rw [← Complex.exp_int_mul]
  unfold eRoot
  congr 1
  ring

theorem eRoot_eq_one_iff (N : ℕ) (hN : N ≠ 0) (d : ℤ) :
    eRoot N d = 1 ↔ (N : ℤ) ∣ d := by
  rw [eRoot_eq_zpow]
  exact (Complex.isPrimitiveRoot_exp N hN).zpow_eq_one_iff_dvd d

theorem eRoot_sum_range (N : ℕ) (hN : 0 < N) (d : ℤ) :
    ∑ u ∈ Finset.range N, eRoot N (d * u) = if (N : ℤ) ∣ d then (N : ℂ) else 0 := by
  have hpow : ∀ u : ℕ, eRoot N (d * u) = eRoot N d ^ u := fun u => (eRoot_pow N d u).symm
  by_cases hd : (N : ℤ) ∣ d
  · have h1 : eRoot N d = 1 := (eRoot_eq_one_iff N hN.ne' d).mpr hd
    rw [if_pos hd]
    rw [Finset.sum_congr rfl fun u _ => hpow u]
    simp [h1]
  · have h1 : eRoot N d ≠ 1 := fun h => hd ((eRoot_eq_one_iff N hN.ne' d).mp h)
    have hNpow : eRoot N d ^ N = 1 := by
      rw [eRoot_pow]
      exact (eRoot_eq_one_iff N hN.ne' _).mpr ⟨d, by ring⟩
    rw [if_neg hd]
    rw [Finset.sum_congr rfl fun u _ => hpow u, geom_sum_eq h1 N, hNpow]
    simp

theorem eRoot_orth (N : ℕ) (a i : Fin N) :
    ∑ u : Fin N, eRoot N (((a.val : ℤ) - (i.val : ℤ)) * u.val)
      = if a = i then (N : ℂ) else 0 := by
  have hN : 0 < N := a.pos
  rw [Fin.sum_univ_eq_sum_range (fun u : ℕ => eRoot N (((a.val : ℤ) - (i.val : ℤ)) * u)) N]
  rw [eRoot_sum_range N hN]
  have hcond : (N : ℤ) ∣ ((a.val : ℤ) - (i.val : ℤ)) ↔ a = i := by
    constructor
    · intro hdvd
      by_contra hne
      have hd0 : ((a.val : ℤ) - (i.val : ℤ)) ≠ 0 := by
        intro h0
        exact hne (Fin.ext (by omega))
      have h1 : (N : ℤ) ≤ |(a.val : ℤ) - (i.val : ℤ)| :=
        Int.le_of_dvd (abs_pos.mpr hd0) ((dvd_abs _ _).mpr hdvd)
      have ha := a.isLt
      have hi := i.isLt
      rcases abs_cases ((a.val : ℤ) - (i.val : ℤ)) with h2 | h2 <;> omega
    · rintro rfl
      simp
  simp [hcond]

theorem eRoot_sum_fin (N : ℕ) (u : Fin N) :
    ∑ a : Fin N, eRoot N ((u.val : ℤ) * a.val) = if u.val = 0 then (N : ℂ) else 0 := by
  have hN : 0 < N := u.pos
  rw [Fin.sum_univ_eq_sum_range (fun a : ℕ => eRoot N ((u.val : ℤ) * a)) N]
  rw [eRoot_sum_range N hN]
  have hcond : (N : ℤ) ∣ (u.val : ℤ) ↔ u.val = 0 := by
    constructor
    · intro hdvd
      by_contra hne
      have h1 : (N : ℤ) ≤ (u.val : ℤ) :=
        Int.le_of_dvd (by omega) hdvd
      have := u.isLt
      omega
    · intro h
      rw [h]
      exact ⟨0, by ring⟩
  simp [hcond]

/-! ### Inversion of the modelled transforms -/

theorem IFFT1D_FFT1D (N : ℕ) (x : Fin N → ℂ) : IFFT1D N (FFT1D N x) = x := by
  funext a
  have hN : 0 < N := a.pos
  have hNc : (N : ℂ) ≠ 0 := Nat.cast_ne_zero.mpr hN.ne'
  unfold IFFT1D FFT1D
  have step1 : ∀ u : Fin N,
      (∑ i : Fin N, x i * eRoot N (-(u.val * i.val : ℤ))) * eRoot N ((u.val * a.val : ℤ))
        = ∑ i : Fin N, x i * eRoot N (((a.val : ℤ) - (i.val : ℤ)) * u.val) := by
    intro u
    rw [Finset.sum_mul]
    refine Finset.sum_congr rfl fun i _ => ?_
    rw [mul_assoc, ← eRoot_add]
    congr 2
    ring
  rw [Finset.sum_congr rfl fun u _ => step1 u]
  rw [Finset.sum_comm]
  rw [Finset.sum_congr rfl fun i (_ : i ∈ Finset.univ) => (Finset.mul_sum
    (Finset.univ : Finset (Fin N)) (fun u => eRoot N (((a.val : ℤ) - (i.val : ℤ)) * u.val))
    (x i)).symm]
  rw [Finset.sum_congr rfl fun i (_ : i ∈ Finset.univ) => by rw [eRoot_orth N a i]]
  simp only [mul_ite, mul_zero, Finset.sum_ite_eq, Finset.mem_univ, if_true]
  field_simp

theorem FFT2D_nested (W H : ℕ) (x : Fin W → Fin H → ℂ) (u : Fin W) (v : Fin H) :
    FFT2D W H x u v = FFT1D H (fun j => FFT1D W (fun i => x i j) u) v := by
  unfold FFT2D FFT1D
  rw [Finset.sum_comm]
  refine Finset.sum_congr rfl fun j _ => ?_
  rw [Finset.sum_mul]

theorem IFFT2D_nested (W H : ℕ) (X : Fin W → Fin H → ℂ) (a : Fin W) (b : Fin H) :
    IFFT2D W H X a b = IFFT1D W (fun u => IFFT1D H (X u) b) a := by
  unfold IFFT2D IFFT1D
  simp only [Finset.mul_sum, Finset.sum_mul]
  refine Finset.sum_congr rfl fun u _ => Finset.sum_congr rfl fun v _ => ?_
  ring

/-- C2: for every complex 2D grid, the inverse 2D FFT exactly undoes the
forward 2D FFT; the transforms are modelled from the spec (go-dsp is
external), with the 1/N normalization applied exactly once, at the inverse
step, so the round trip is the identity (hence matches the spec's 1e-10
round-trip bound on 64/128/256-sized real grids in exact arithmetic). -/
theorem IFFT2D_FFT2D (W H : ℕ) (x : Fin W → Fin H → ℂ) :
    IFFT2D W H (FFT2D W H x) = x := by
  funext a b
  rw [IFFT2D_nested]
  have h1 : ∀ u : Fin W, IFFT1D H (FFT2D W H x u) b = FFT1D W (fun i => x i b) u := by
    intro u
    have h2 : FFT2D W H x u = FFT1D H (fun j => FFT1D W (fun i => x i j) u) := by
      funext v
      exact FFT2D_nested W H x u v
    rw [h2, congrFun (IFFT1D_FFT1D H (fun j => FFT1D W (fun i => x i j) u)) b]
  have h3 : (fun u => IFFT1D H (FFT2D W H x u) b) = fun u => FFT1D W (fun i => x i b) u :=
    funext h1
  rw [h3]
  exact congrFun (IFFT1D_FFT1D W (fun i => x i b)) a

theorem sum_IFFT1D (N : ℕ) (hN : 0 < N) (X : Fin N → ℂ) :
    ∑ a : Fin N, IFFT1D N X a = X ⟨0, hN⟩ := by
  have hNc : (N : ℂ) ≠ 0 := Nat.cast_ne_zero.mpr hN.ne'
  unfold IFFT1D
  rw [← Finset.mul_sum, Finset.sum_comm]
  rw [Finset.sum_congr rfl fun u (_ : u ∈ Finset.univ) => (Finset.mul_sum
      (Finset.univ : Finset (Fin N)) (fun a => eRoot N ((u.val * a.val : ℤ))) (X u)).symm]
  rw [Finset.sum_congr rfl fun u (_ : u ∈ Finset.univ) => by rw [eRoot_sum_fin N u]]
  have hval : ∀ u : Fin N, (u.val = 0) = (u = ⟨0, hN⟩) :=
    fun u => propext ⟨fun h => Fin.ext h, fun h => by rw [h]⟩
  simp only [hval, mul_ite, mul_zero, Finset.sum_ite_eq', Finset.mem_univ, if_true]
  field_simp

theorem sum_sum_IFFT2D (W H : ℕ) (hW : 0 < W) (hH : 0 < H) (X : Fin W → Fin H → ℂ) :
    ∑ i : Fin W, ∑ j : Fin H, IFFT2D W H X i j = X ⟨0, hW⟩ ⟨0, hH⟩ := by
  rw [Finset.sum_comm]
  have h1 : ∀ j : Fin H, ∑ i : Fin W, IFFT2D W H X i j = IFFT1D H (X ⟨0, hW⟩) j := by
    intro j
    rw [Finset.sum_congr rfl fun i (_ : i ∈ Finset.univ) => IFFT2D_nested W H X i j]
    exact sum_IFFT1D W hW (fun u => IFFT1D H (X u) j)
  rw [Finset.sum_congr rfl fun j (_ : j ∈ Finset.univ) => h1 j]
  exact sum_IFFT1D H hH (X ⟨0, hW⟩)

/-! ### Wavenumber lemmas -/

theorem waveNumber_eq_zero_iff (W u : ℕ) (hu : u < W) :
    waveNumber W u = 0 ↔ u = 0 := by
  unfold waveNumber
  split <;> omega

theorem kSquared_eq_zero_iff (W H : ℕ) (hW : 0 < W) (hH : 0 < H) (u v : ℕ)
    (hu : u < W) (hv : v < H) :
    kSquared W H u v = 0 ↔ (u = 0 ∧ v = 0) := by
  have hWr : (0 : ℝ) < W := by exact_mod_cast hW
  have hHr : (0 : ℝ) < H := by exact_mod_cast hH
  have h2W : (2 * Real.pi / (W : ℝ)) ≠ 0 :=
    (div_pos (by positivity) hWr).ne'
  have h2H : (2 * Real.pi / (H : ℝ)) ≠ 0 :=
    (div_pos (by positivity) hHr).ne'
  unfold kSquared
  rw [add_eq_zero_iff_of_nonneg (sq_nonneg _) (sq_nonneg _), sq_eq_zero_iff, sq_eq_zero_iff,
    mul_eq_zero, mul_eq_zero, or_iff_left h2W, or_iff_left h2H, Int.cast_eq_zero,
    Int.cast_eq_zero, waveNumber_eq_zero_iff W u hu, waveNumber_eq_zero_iff H v hv]

theorem kSquared_zero_zero (W H : ℕ) : kSquared W H 0 0 = 0 := by
  unfold kSquared waveNumber
  simp

/-- The frequency-space loop characterized: the DC cell is zeroed, every
other cell is multiplied by the real scalar `-4πG/k²`. -/
theorem greenMultiply_char (width height : ℕ) (hW : 0 < width) (hH : 0 < height)
    (G : ℝ) (F : Fin width → Fin height → ℂ) (u : Fin width) (v : Fin height) :
    greenMultiply width height G F u v
      = if u.val = 0 ∧ v.val = 0 then 0
        else F u v * (((-4) * Real.pi * G / kSquared width height u.val v.val : ℝ) : ℂ) := by
  unfold greenMultiply
  by_cases h : u.val = 0 ∧ v.val = 0
  · rw [if_pos h, if_pos ((kSquared_eq_zero_iff _ _ hW hH _ _ u.isLt v.isLt).mpr h)]
  · rw [if_neg h, if_neg (fun hk => h ((kSquared_eq_zero_iff _ _ hW hH _ _ u.isLt v.isLt).mp hk))]

theorem greenMultiply_dc (width height : ℕ) (hW : 0 < width) (hH : 0 < height)
    (G : ℝ) (F : Fin width → Fin height → ℂ) :
    greenMultiply width height G F ⟨0, hW⟩ ⟨0, hH⟩ = 0 := by
  unfold greenMultiply
  rw [if_pos]
  exact kSquared_zero_zero width height

/-- The sum of all cells of the returned potential vanishes. -/
theorem sum_SolvePoissonFFT (width height : ℕ) (hW : 0 < width) (hH : 0 < height)
    (massGrid : Fin width → Fin height → ℝ) (G : ℝ) :
    ∑ i : Fin width, ∑ j : Fin height, SolvePoissonFFT width height massGrid G i j = 0 := by
  unfold SolvePoissonFFT
  have h2 : ∑ i : Fin width, ∑ j : Fin height,
        (IFFT2D width height
          (greenMultiply width height G
            (FFT2D width height (fun a b => ((massGrid a b : ℝ) : ℂ)))) i j).re
      = (∑ i : Fin width, ∑ j : Fin height,
          IFFT2D width height
            (greenMultiply width height G
              (FFT2D width height (fun a b => ((massGrid a b : ℝ) : ℂ)))) i j).re := by
    rw [Complex.re_sum]
    exact Finset.sum_congr rfl fun i _ => (Complex.re_sum _ _).symm
  rw [h2, sum_sum_IFFT2D width height hW hH, greenMultiply_dc width height hW hH]
  rfl

theorem FFT2D_at_zero (W H : ℕ) (hW : 0 < W) (hH : 0 < H) (x : Fin W → Fin H → ℂ) :
    FFT2D W H x ⟨0, hW⟩ ⟨0, hH⟩ = ∑ i : Fin W, ∑ j : Fin H, x i j := by
  unfold FFT2D
  refine Finset.sum_congr rfl fun i _ => Finset.sum_congr rfl fun j _ => ?_
  show x i j * eRoot W (-((0 : ℕ) * i.val : ℤ)) * eRoot H (-((0 : ℕ) * j.val : ℤ)) = x i j
  norm_num [eRoot_zero]

/-! ### FallbackManager theorems -/

theorem isGPUFaster_iff (m : FallbackManager) :
    isGPUFaster m = true ↔
      (m.performanceData ProcessorType.cpu ≠ [] ∧
        m.performanceData ProcessorType.gpu ≠ [] ∧
        (calculateStats (m.performanceData ProcessorType.gpu)).averageTime
          < (calculateStats (m.performanceData ProcessorType.cpu)).averageTime) := by
  unfold isGPUFaster
  dsimp only
  split
  case isTrue h =>
    simp only [List.length_eq_zero] at h
    simp only [Bool.false_eq_true, false_iff]
    tauto
  case isFalse h =>
    simp only [List.length_eq_zero, not_or] at h
    simp only [decide_eq_true_eq]
    tauto

/-- C5: `SimulateGPUError` while in `ForceGPU` flips the mode to
`ForceCPU`; the error flag is set; the next `GetProcessor` returns the CPU
type; the flip is one-directional (`ForceCPU` and `Auto` keep their mode);
`ClearErrors` resets the error flag and the recorded error. -/
theorem simulateGPUError_spec (m : FallbackManager) :
    (m.mode = ComputeMode.gpu → (SimulateGPUError m).mode = ComputeMode.cpu) ∧
    (m.mode = ComputeMode.cpu → (SimulateGPUError m).mode = ComputeMode.cpu) ∧
    (m.mode = ComputeMode.auto → (SimulateGPUError m).mode = ComputeMode.auto) ∧
    (SimulateGPUError m).hasError = true ∧
    GetProcessor (SimulateGPUError m) = ProcessorType.cpu ∧
    (ClearErrors m).hasError = false ∧
    (ClearErrors m).lastError = none := by
  rcases m with ⟨mode, avail, err, lastE, perf⟩
  cases mode <;> simp [SimulateGPUError, ClearErrors, GetProcessor]

/-- C5 witness: the theorem applied to a manager forced into GPU mode. -/
theorem simulateGPUError_spec_witness :
    (SimulateGPUError (SetMode NewFallbackManager ComputeMode.gpu)).mode = ComputeMode.cpu ∧
    (SimulateGPUError (SetMode NewFallbackManager ComputeMode.gpu)).hasError = true ∧
    GetProcessor (SimulateGPUError (SetMode NewFallbackManager ComputeMode.gpu))
      = ProcessorType.cpu ∧
    (ClearErrors (SetMode NewFallbackManager ComputeMode.gpu)).hasError = false :=
  ⟨(simulateGPUError_spec (SetMode NewFallbackManager ComputeMode.gpu)).1 rfl,
    (simulateGPUError_spec (SetMode NewFallbackManager ComputeMode.gpu)).2.2.2.1,
    (simulateGPUError_spec (SetMode NewFallbackManager ComputeMode.gpu)).2.2.2.2.1,
    (simulateGPUError_spec (SetMode NewFallbackManager ComputeMode.gpu)).2.2.2.2.2.1⟩

/-- C6: in `Auto` mode, `GetProcessor` selects the GPU type exactly when
the GPU is available, error-free, both processor types have recorded
samples, and the GPU's average latency is strictly lower; with missing
samples on either side it returns the CPU type. -/
theorem getProcessor_auto_spec (m : FallbackManager) (h : m.mode = ComputeMode.auto) :
    (GetProcessor m = ProcessorType.gpu ↔
      (m.gpuAvailable = true ∧ m.hasError = false ∧
        m.performanceData ProcessorType.cpu ≠ [] ∧
        m.performanceData ProcessorType.gpu ≠ [] ∧
        (calculateStats (m.performanceData ProcessorType.gpu)).averageTime
          < (calculateStats (m.performanceData ProcessorType.cpu)).averageTime)) ∧
    ((m.performanceData ProcessorType.cpu = [] ∨ m.performanceData ProcessorType.gpu = []) →
      GetProcessor m = ProcessorType.cpu) := by
  have hget : GetProcessor m
      = if m.gpuAvailable ∧ ¬m.hasError ∧ isGPUFaster m then ProcessorType.gpu
        else ProcessorType.cpu := by
    unfold GetProcessor
    rw [h]
  constructor
  · rw [hget]
    constructor
    · intro hgpu
      split_ifs at hgpu with hc
      obtain ⟨h1, h2, h3⟩ := hc
      obtain ⟨h4, h5, h6⟩ := (isGPUFaster_iff m).mp h3
      exact ⟨h1, by simpa using h2, h4, h5, h6⟩
    · rintro ⟨h1, h2, h3, h4, h5⟩
      rw [if_pos ⟨h1, by simp [h2], (isGPUFaster_iff m).mpr ⟨h3, h4, h5⟩⟩]
  · intro hemp
    rw [hget, if_neg]
    rintro ⟨h1, h2, h3⟩
    obtain ⟨h4, h5, h6⟩ := (isGPUFaster_iff m).mp h3
    tauto

/-- C6 witness: a concrete Auto-mode manager with GPU available and a
faster recorded GPU average; `GetProcessor` selects the GPU type. -/
theorem getProcessor_auto_spec_witness :
    ({ mode := ComputeMode.auto, gpuAvailable := true, hasError := false,
       lastError := none,
       performanceData := fun pt => match pt with
         | ProcessorType.cpu => [10]
         | ProcessorType.gpu => [5] } : FallbackManager).mode = ComputeMode.auto ∧
    GetProcessor
      { mode := ComputeMode.auto, gpuAvailable := true, hasError := false,
        lastError := none,
        performanceData := fun pt => match pt with
          | ProcessorType.cpu => [10]
          | ProcessorType.gpu => [5] } = ProcessorType.gpu :=
  ⟨rfl,
    (getProcessor_auto_spec _ rfl).1.mpr
      ⟨rfl, rfl, by simp, by simp, by norm_num [calculateStats]⟩⟩

theorem applyOp_gpuAvailable (m : FallbackManager) (op : FMOp) :
    (applyOp m op).gpuAvailable = m.gpuAvailable := by
  cases op
  case setMode md => rfl
  case simulateGPUError =>
    unfold applyOp SimulateGPUError
    dsimp only
    split <;> rfl
  case clearErrors => rfl
  case recordPerformance pt t => rfl

theorem runOps_gpuAvailable (ops : List FMOp) : (runOps ops).gpuAvailable = false := by
  suffices h : ∀ m : FallbackManager, (ops.foldl applyOp m).gpuAvailable = m.gpuAvailable by
    exact h NewFallbackManager
  induction ops with
  | nil => intro m; rfl
  | cons op rest ih =>
      intro m
      rw [List.foldl_cons, ih, applyOp_gpuAvailable]

theorem getProcessor_cpu_of_no_gpu (m : FallbackManager) (hg : m.gpuAvailable = false) :
    GetProcessor m = ProcessorType.cpu := by
  unfold GetProcessor
  rcases m with ⟨mode, avail, err, lastE, perf⟩
  cases hg
  cases mode <;> simp

/-- C9: a fresh manager reports no GPU, no exported call ever makes the
GPU available, so after every call sequence `GetProcessor` returns the CPU
type in all three modes and `AttemptRecovery` fails. -/
theorem fallbackManager_never_gpu (ops : List FMOp) :
    NewFallbackManager.gpuAvailable = false ∧
    (runOps ops).gpuAvailable = false ∧
    GetProcessor (runOps ops) = ProcessorType.cpu ∧
    (∀ md : ComputeMode, GetProcessor (SetMode (runOps ops) md) = ProcessorType.cpu) ∧
    AttemptRecovery (runOps ops) = Except.error "GPU not available" := by
  have hg := runOps_gpuAvailable ops
  refine ⟨rfl, hg, getProcessor_cpu_of_no_gpu _ hg,
    fun md => getProcessor_cpu_of_no_gpu _ (by simpa [SetMode] using hg), ?_⟩
  unfold AttemptRecovery
  rw [if_pos]
  simp [hg]

/-- C9 witness: the theorem applied to a concrete call sequence exercising
all four exported mutations. -/
theorem fallbackManager_never_gpu_witness :
    GetProcessor (runOps [FMOp.setMode ComputeMode.gpu, FMOp.simulateGPUError,
        FMOp.clearErrors, FMOp.recordPerformance ProcessorType.gpu 1])
      = ProcessorType.cpu ∧
    AttemptRecovery (runOps [FMOp.setMode ComputeMode.gpu, FMOp.simulateGPUError,
        FMOp.clearErrors, FMOp.recordPerformance ProcessorType.gpu 1])
      = Except.error "GPU not available" :=
  ⟨(fallbackManager_never_gpu [FMOp.setMode ComputeMode.gpu, FMOp.simulateGPUError,
      FMOp.clearErrors, FMOp.recordPerformance ProcessorType.gpu 1]).2.2.1,
    (fallbackManager_never_gpu [FMOp.setMode ComputeMode.gpu, FMOp.simulateGPUError,
      FMOp.clearErrors, FMOp.recordPerformance ProcessorType.gpu 1]).2.2.2.2⟩

/-! ### Mass deposition theorems -/

/-- C3: `DepositMassToGrid` processes particles one at a time; for an
in-range particle the mass lands on exactly the four cells
(i,j), (i+1,j), (i,j+1), (i+1,j+1) with the bilinear weights
(1-fx)(1-fz), fx(1-fz), (1-fx)fz, fx·fz, where (i,j) is the truncated
integer index of the half-extent-offset position and (fx,fz) its
fractional part; a particle whose index is width-1 or height-1 (or out of
the guard in any other way) leaves the grid unchanged, i.e. contributes
zero mass, and no error is raised. -/
theorem depositMass_spec (width height : ℕ) (grid : ℕ → ℕ → ℚ) (p : Particle)
    (ps : List Particle) :
    (DepositMassToGrid (ps ++ [p]) width height
        = depositParticle width height (DepositMassToGrid ps width height) p) ∧
    (inDepositRange width height p.position →
      (depositParticle width height grid p
          (cellI width p.position).toNat (cellJ height p.position).toNat
        = grid (cellI width p.position).toNat (cellJ height p.position).toNat
          + p.mass * (1 - fracX width p.position) * (1 - fracZ height p.position)) ∧
      (depositParticle width height grid p
          ((cellI width p.position).toNat + 1) (cellJ height p.position).toNat
        = grid ((cellI width p.position).toNat + 1) (cellJ height p.position).toNat
          + p.mass * fracX width p.position * (1 - fracZ height p.position)) ∧
      (depositParticle width height grid p
          (cellI width p.position).toNat ((cellJ height p.position).toNat + 1)
        = grid (cellI width p.position).toNat ((cellJ height p.position).toNat + 1)
          + p.mass * (1 - fracX width p.position) * fracZ height p.position) ∧
      (depositParticle width height grid p
          ((cellI width p.position).toNat + 1) ((cellJ height p.position).toNat + 1)
        = grid ((cellI width p.position).toNat + 1) ((cellJ height p.position).toNat + 1)
          + p.mass * fracX width p.position * fracZ height p.position) ∧
      (∀ a b : ℕ,
        ¬((a = (cellI width p.position).toNat ∨ a = (cellI width p.position).toNat + 1) ∧
          (b = (cellJ height p.position).toNat ∨ b = (cellJ height p.position).toNat + 1)) →
        depositParticle width height grid p a b = grid a b)) ∧
    (¬inDepositRange width height p.position →
      depositParticle width height grid p = grid) ∧
    ((cellI width p.position = (width : ℤ) - 1 ∨ cellJ height p.position = (height : ℤ) - 1) →
      depositParticle width height grid p = grid) := by
  refine ⟨?_, ?_, ?_, ?_⟩
  · unfold DepositMassToGrid
    rw [List.foldl_append]
    rfl
  · intro hin
    have hi0 : 0 ≤ cellI width p.position := hin.1
    have hj0 : 0 ≤ cellJ height p.position := hin.2.2.1
    have hiN : ((cellI width p.position).toNat : ℤ) = cellI width p.position :=
      Int.toNat_of_nonneg hi0
    have hjN : ((cellJ height p.position).toNat : ℤ) = cellJ height p.position :=
      Int.toNat_of_nonneg hj0
    unfold depositParticle
    rw [if_pos hin]
    refine ⟨?_, ?_, ?_, ?_, ?_⟩
    · rw [if_pos ⟨hiN, hjN⟩, if_neg (by omega), if_neg (by omega), if_neg (by omega)]
      ring
    · rw [if_neg (by omega), if_pos ⟨by omega, hjN⟩, if_neg (by omega), if_neg (by omega)]
      ring
    · rw [if_neg (by omega), if_neg (by omega), if_pos ⟨hiN, by omega⟩, if_neg (by omega)]
      ring
    · rw [if_neg (by omega), if_neg (by omega), if_neg (by omega),
        if_pos ⟨by omega, by omega⟩]
      ring
    · intro a b hab
      rw [if_neg (by omega), if_neg (by omega), if_neg (by omega), if_neg (by omega)]
      ring
  · intro hout
    unfold depositParticle
    rw [if_neg hout]
  · intro hedge
    have hout : ¬inDepositRange width height p.position := by
      unfold inDepositRange
      rcases hedge with hh | hh <;> omega
    unfold depositParticle
    rw [if_neg hout]

/-- C3 witness: in-range single particle (grid coordinate (2.5, 3.5) on a
10×10 grid) deposited on the zero grid: the (2,3) cell gains a quarter of
the mass and a far cell is untouched. -/
theorem depositMass_spec_witness :
    inDepositRange 10 10 (⟨⟨-(5/2), 0, -(3/2)⟩, ⟨0, 0, 0⟩, 100⟩ : Particle).position ∧
    DepositMassToGrid ([] ++ [(⟨⟨-(5/2), 0, -(3/2)⟩, ⟨0, 0, 0⟩, 100⟩ : Particle)]) 10 10
      = depositParticle 10 10 (DepositMassToGrid [] 10 10)
          (⟨⟨-(5/2), 0, -(3/2)⟩, ⟨0, 0, 0⟩, 100⟩ : Particle) ∧
    depositParticle 10 10 (fun _ _ => 0) (⟨⟨-(5/2), 0, -(3/2)⟩, ⟨0, 0, 0⟩, 100⟩ : Particle)
        (cellI 10 (⟨⟨-(5/2), 0, -(3/2)⟩, ⟨0, 0, 0⟩, 100⟩ : Particle).position).toNat
        (cellJ 10 (⟨⟨-(5/2), 0, -(3/2)⟩, ⟨0, 0, 0⟩, 100⟩ : Particle).position).toNat
      = (fun _ _ => (0 : ℚ))
          (cellI 10 (⟨⟨-(5/2), 0, -(3/2)⟩, ⟨0, 0, 0⟩, 100⟩ : Particle).position).toNat
          (cellJ 10 (⟨⟨-(5/2), 0, -(3/2)⟩, ⟨0, 0, 0⟩, 100⟩ : Particle).position).toNat
        + 100 * (1 - fracX 10 (⟨⟨-(5/2), 0, -(3/2)⟩, ⟨0, 0, 0⟩, 100⟩ : Particle).position)
            * (1 - fracZ 10 (⟨⟨-(5/2), 0, -(3/2)⟩, ⟨0, 0, 0⟩, 100⟩ : Particle).position) :=
  ⟨by norm_num [inDepositRange, cellI, cellJ, gridX, gridZ, trunc],
    (depositMass_spec 10 10 (fun _ _ => 0) ⟨⟨-(5/2), 0, -(3/2)⟩, ⟨0, 0, 0⟩, 100⟩ []).1,
    ((depositMass_spec 10 10 (fun _ _ => 0) ⟨⟨-(5/2), 0, -(3/2)⟩, ⟨0, 0, 0⟩, 100⟩ []).2.1
      (by norm_num [inDepositRange, cellI, cellJ, gridX, gridZ, trunc])).1⟩

/-- C7: a single particle whose continuous grid coordinate is (2.5, 3.5)
(world position (-2.5, -1.5)) with mass 100 on a 10×10 grid deposits
exactly 25 into each of the cells (2,3), (3,3), (2,4), (3,4); every other
cell is zero and the grid sums to 100. -/
theorem depositMass_concrete :
    DepositMassToGrid [⟨⟨-(5/2), 0, -(3/2)⟩, ⟨0, 0, 0⟩, 100⟩] 10 10 2 3 = 25 ∧
    DepositMassToGrid [⟨⟨-(5/2), 0, -(3/2)⟩, ⟨0, 0, 0⟩, 100⟩] 10 10 3 3 = 25 ∧
    DepositMassToGrid [⟨⟨-(5/2), 0, -(3/2)⟩, ⟨0, 0, 0⟩, 100⟩] 10 10 2 4 = 25 ∧
    DepositMassToGrid [⟨⟨-(5/2), 0, -(3/2)⟩, ⟨0, 0, 0⟩, 100⟩] 10 10 3 4 = 25 ∧
    (∀ a, a < 10 → ∀ b, b < 10 →
      ¬((a = 2 ∨ a = 3) ∧ (b = 3 ∨ b = 4)) →
      DepositMassToGrid [⟨⟨-(5/2), 0, -(3/2)⟩, ⟨0, 0, 0⟩, 100⟩] 10 10 a b = 0) ∧
    (∑ a ∈ Finset.range 10, ∑ b ∈ Finset.range 10,
      DepositMassToGrid [⟨⟨-(5/2), 0, -(3/2)⟩, ⟨0, 0, 0⟩, 100⟩] 10 10 a b) = 100 := by
  have hI : cellI 10 (⟨-(5/2), 0, -(3/2)⟩ : Vec3) = 2 := by
    norm_num [cellI, gridX, trunc]
  have hJ : cellJ 10 (⟨-(5/2), 0, -(3/2)⟩ : Vec3) = 3 := by
    norm_num [cellJ, gridZ, trunc]
  have hfx : fracX 10 (⟨-(5/2), 0, -(3/2)⟩ : Vec3) = 1/2 := by
    norm_num [fracX, cellI, gridX, trunc]
  have hfz : fracZ 10 (⟨-(5/2), 0, -(3/2)⟩ : Vec3) = 1/2 := by
    norm_num [fracZ, cellJ, gridZ, trunc]
  have hin : inDepositRange 10 10 (⟨-(5/2), 0, -(3/2)⟩ : Vec3) := by
    unfold inDepositRange
    rw [hI, hJ]
    refine ⟨by omega, by omega, by omega, by omega⟩
  have hgrid : ∀ a b : ℕ,
      DepositMassToGrid [⟨⟨-(5/2), 0, -(3/2)⟩, ⟨0, 0, 0⟩, 100⟩] 10 10 a b
        = if (a = 2 ∨ a = 3) ∧ (b = 3 ∨ b = 4) then 25 else 0 := by
    intro a b
    show depositParticle 10 10 (fun _ _ => 0) ⟨⟨-(5/2), 0, -(3/2)⟩, ⟨0, 0, 0⟩, 100⟩ a b = _
    unfold depositParticle
    dsimp only
    rw [if_pos hin, hI, hJ, hfx, hfz]
    by_cases hc : (a = 2 ∨ a = 3) ∧ (b = 3 ∨ b = 4)
    · rw [if_pos hc]
      obtain ⟨ha, hb⟩ := hc
      rcases ha with rfl | rfl <;> rcases hb with rfl | rfl
      · rw [if_pos ⟨by omega, by omega⟩, if_neg (by omega), if_neg (by omega),
          if_neg (by omega)]
        norm_num
      · rw [if_neg (by omega), if_neg (by omega), if_pos ⟨by omega, by omega⟩,
          if_neg (by omega)]
        norm_num
      · rw [if_neg (by omega), if_pos ⟨by omega, by omega⟩, if_neg (by omega),
          if_neg (by omega)]
        norm_num
      · rw [if_neg (by omega), if_neg (by omega), if_neg (by omega),
          if_pos ⟨by omega, by omega⟩]
        norm_num
    · rw [if_neg hc, if_neg (by omega), if_neg (by omega), if_neg (by omega),
        if_neg (by omega)]
      norm_num
  have hsum : (∑ a ∈ Finset.range 10, ∑ b ∈ Finset.range 10,
      DepositMassToGrid [⟨⟨-(5/2), 0, -(3/2)⟩, ⟨0, 0, 0⟩, 100⟩] 10 10 a b)
      = ∑ a ∈ Finset.range 10, ∑ b ∈ Finset.range 10,
          (if (a = 2 ∨ a = 3) ∧ (b = 3 ∨ b = 4) then (25 : ℚ) else 0) :=
    Finset.sum_congr rfl fun a _ => Finset.sum_congr rfl fun b _ => hgrid a b
  refine ⟨?_, ?_, ?_, ?_, ?_, ?_⟩
  · rw [hgrid]
    norm_num
  · rw [hgrid]
    norm_num
  · rw [hgrid]
    norm_num
  · rw [hgrid]
    norm_num
  · intro a ha b hb hn
    rw [hgrid, if_neg hn]
  · rw [hsum]
    simp only [Finset.sum_range_succ, Finset.sum_range_zero]
    norm_num

/-! ### Poisson solver theorem (C1) -/

/-- C1: `SolvePoissonFFT` computes, for each frequency index (u,v), the
centered wavenumbers kx = u (or u-width if u > width/2) and kz analogous,
scaled by 2π/width and 2π/height; the scaled k² is exactly zero iff
(u,v) = (0,0); the frequency-space cell at (0,0) is set to 0 and every
other cell is multiplied by the real scalar -4πG/k²; the result is the
real part of the inverse transform, and the DC component of the returned
potential (its forward transform at frequency (0,0), i.e. its total sum)
is zero. -/
theorem SolvePoissonFFT_spec (width height : ℕ) (hW : 0 < width) (hH : 0 < height)
    (massGrid : Fin width → Fin height → ℝ) (G : ℝ) :
    (∀ (u : Fin width) (v : Fin height),
        kSquared width height u.val v.val = 0 ↔ (u.val = 0 ∧ v.val = 0)) ∧
    (∀ (u : Fin width) (v : Fin height),
        greenMultiply width height G
            (FFT2D width height (fun a b => ((massGrid a b : ℝ) : ℂ))) u v
          = if u.val = 0 ∧ v.val = 0 then 0
            else FFT2D width height (fun a b => ((massGrid a b : ℝ) : ℂ)) u v
                * (((-4) * Real.pi * G / kSquared width height u.val v.val : ℝ) : ℂ)) ∧
    (∑ i : Fin width, ∑ j : Fin height,
      SolvePoissonFFT width height massGrid G i j = 0) ∧
    FFT2D width height
        (fun i j => ((SolvePoissonFFT width height massGrid G i j : ℝ) : ℂ))
        ⟨0, hW⟩ ⟨0, hH⟩ = 0 := by
  refine ⟨fun u v => kSquared_eq_zero_iff width height hW hH u.val v.val u.isLt v.isLt,
    fun u v => greenMultiply_char width height hW hH G _ u v,
    sum_SolvePoissonFFT width height hW hH massGrid G, ?_⟩
  rw [FFT2D_at_zero width height hW hH]
  have hc : ∑ i : Fin width, ∑ j : Fin height,
      ((SolvePoissonFFT width height massGrid G i j : ℝ) : ℂ)
      = (((∑ i : Fin width, ∑ j : Fin height,
            SolvePoissonFFT width height massGrid G i j : ℝ)) : ℂ) := by
    push_cast
    rfl
  rw [hc, sum_SolvePoissonFFT width height hW hH massGrid G]
  exact Complex.ofReal_zero

/-- C1 witness: the theorem applied at a 2×2 unit-density grid with
G = 1. -/
theorem SolvePoissonFFT_spec_witness :
    0 < 2 ∧
    (∑ i : Fin 2, ∑ j : Fin 2,
      SolvePoissonFFT 2 2 (fun _ _ => 1) 1 i j = 0) :=
  ⟨by decide,
    (SolvePoissonFFT_spec 2 2 (by decide) (by decide) (fun _ _ => 1) 1).2.2.1⟩

/-! ### Gradient theorem (C4) -/

/-- C4: at width = 2, height = 1 the embedded `CalculateGradient` yields
`none` — the Go code panics there, because `AccelFieldZ` is allocated with
outer length `height` while the initialization loop writes indices up to
`width - 1`; for every width ≤ height (in particular every square grid)
the returned fields are the central differences with periodic (modulo)
neighbor indexing in both axes, as the claim states. -/
theorem calculateGradient_spec :
    CalculateGradient (fun _ _ => 0) 2 1 = none ∧
    (∀ (potentialGrid : ℕ → ℕ → ℚ) (width height : ℕ), width ≤ height →
      ∃ ff : ForceField,
        CalculateGradient potentialGrid width height = some ff ∧
        ff.width = width ∧ ff.height = height ∧
        (∀ i j, ff.accelFieldX i j
          = -(potentialGrid ((i + 1) % width) j
              - potentialGrid ((i + width - 1) % width) j) / 2) ∧
        (∀ i j, ff.accelFieldZ i j
          = -(potentialGrid i ((j + 1) % height)
              - potentialGrid i ((j + height - 1) % height)) / 2)) := by
  constructor
  · rfl
  · intro potentialGrid width height hwh
    refine ⟨⟨fun i j =>
        -(potentialGrid ((i + 1) % width) j
            - potentialGrid ((i + width - 1) % width) j) / 2,
      fun i j =>
        -(potentialGrid i ((j + 1) % height)
            - potentialGrid i ((j + height - 1) % height)) / 2,
      width, height⟩, ?_, rfl, rfl, fun i j => rfl, fun i j => rfl⟩
    unfold CalculateGradient
    rw [if_pos hwh]

/-! ### Interpolation theorems (C8) -/

/-- C8 counterexample: a position whose continuous grid coordinate is
(-1/2, -1/2) — outside [0, width-1) × [0, height-1) — is nevertheless
bilinearly interpolated (Go `int()` truncates -1/2 to 0, which passes the
index guard), returning (1,1) on constant-1 acceleration fields instead of
the claimed (0,0). -/
theorem interpolate_outside_nonzero :
    InterpolateAcceleration ⟨-(3/2), 0, -(3/2)⟩
        ⟨fun _ _ => 1, fun _ _ => 1, 2, 2⟩ = (1, 1) ∧
    gridX 2 (⟨-(3/2), 0, -(3/2)⟩ : Vec3) < 0 := by
  have hI : cellI 2 (⟨-(3/2), 0, -(3/2)⟩ : Vec3) = 0 := by
    norm_num [cellI, gridX, trunc]
  have hJ : cellJ 2 (⟨-(3/2), 0, -(3/2)⟩ : Vec3) = 0 := by
    norm_num [cellJ, gridZ, trunc]
  have hfx : fracX 2 (⟨-(3/2), 0, -(3/2)⟩ : Vec3) = -(1/2) := by
    norm_num [fracX, cellI, gridX, trunc]
  have hfz : fracZ 2 (⟨-(3/2), 0, -(3/2)⟩ : Vec3) = -(1/2) := by
    norm_num [fracZ, cellJ, gridZ, trunc]
  constructor
  · unfold InterpolateAcceleration
    dsimp only
    rw [if_pos ⟨le_of_eq hI.symm, by rw [hI]; norm_num,
        le_of_eq hJ.symm, by rw [hJ]; norm_num⟩, hfx, hfz]
    norm_num
  · norm_num [gridX]

/-- C8 amended: `InterpolateAcceleration` returns the bilinear
interpolation of the two acceleration fields exactly when the truncated
integer indices pass the guard 0 ≤ i < width-1 ∧ 0 ≤ j < height-1, and
(0,0) otherwise; every coordinate in [0,width-1) × [0,height-1) passes the
guard (but so do coordinates with a component in (-1,0), by truncation
toward zero). -/
theorem interpolateAcceleration_spec (position : Vec3) (ff : ForceField) :
    (¬(0 ≤ cellI ff.width position ∧ cellI ff.width position < (ff.width : ℤ) - 1 ∧
        0 ≤ cellJ ff.height position ∧ cellJ ff.height position < (ff.height : ℤ) - 1) →
      InterpolateAcceleration position ff = (0, 0)) ∧
    ((0 ≤ cellI ff.width position ∧ cellI ff.width position < (ff.width : ℤ) - 1 ∧
        0 ≤ cellJ ff.height position ∧ cellJ ff.height position < (ff.height : ℤ) - 1) →
      InterpolateAcceleration position ff
        = ((ff.accelFieldX (cellI ff.width position).toNat (cellJ ff.height position).toNat
              * (1 - fracZ ff.height position)
            + ff.accelFieldX (cellI ff.width position).toNat
                ((cellJ ff.height position).toNat + 1) * fracZ ff.height position)
              * (1 - fracX ff.width position)
            + (ff.accelFieldX ((cellI ff.width position).toNat + 1)
                  (cellJ ff.height position).toNat * (1 - fracZ ff.height position)
              + ff.accelFieldX ((cellI ff.width position).toNat + 1)
                  ((cellJ ff.height position).toNat + 1) * fracZ ff.height position)
              * fracX ff.width position,
           (ff.accelFieldZ (cellI ff.width position).toNat (cellJ ff.height position).toNat
              * (1 - fracZ ff.height position)
            + ff.accelFieldZ (cellI ff.width position).toNat
                ((cellJ ff.height position).toNat + 1) * fracZ ff.height position)
              * (1 - fracX ff.width position)
            + (ff.accelFieldZ ((cellI ff.width position).toNat + 1)
                  (cellJ ff.height position).toNat * (1 - fracZ ff.height position)
              + ff.accelFieldZ ((cellI ff.width position).toNat + 1)
                  ((cellJ ff.height position).toNat + 1) * fracZ ff.height position)
              * fracX ff.width position)) ∧
    (0 ≤ gridX ff.width position → gridX ff.width position < (ff.width : ℚ) - 1 →
      0 ≤ gridZ ff.height position → gridZ ff.height position < (ff.height : ℚ) - 1 →
      (0 ≤ cellI ff.width position ∧ cellI ff.width position < (ff.width : ℤ) - 1 ∧
        0 ≤ cellJ ff.height position ∧ cellJ ff.height position < (ff.height : ℤ) - 1)) := by
  refine ⟨?_, ?_, ?_⟩
  · intro h
    unfold InterpolateAcceleration
    rw [if_neg h]
  · intro h
    unfold InterpolateAcceleration
    rw [if_pos h]
  · intro h1 h2 h3 h4
    have hci : cellI ff.width position = ⌊gridX ff.width position⌋ := by
      unfold cellI trunc
      rw [if_pos h1]
    have hcj : cellJ ff.height position = ⌊gridZ ff.height position⌋ := by
      unfold cellJ trunc
      rw [if_pos h3]
    refine ⟨?_, ?_, ?_, ?_⟩
    · rw [hci]
      exact Int.le_floor.mpr (by exact_mod_cast h1)
    · rw [hci]
      exact Int.floor_lt.mpr (by push_cast; exact h2)
    · rw [hcj]
      exact Int.le_floor.mpr (by exact_mod_cast h3)
    · rw [hcj]
      exact Int.floor_lt.mpr (by push_cast; exact h4)

/-- C8 amended witness: a far-out position returns exactly (0,0). -/
theorem interpolateAcceleration_spec_witness :
    InterpolateAcceleration ⟨100, 0, 0⟩ ⟨fun _ _ => 1, fun _ _ => 1, 3, 3⟩ = (0, 0) :=
  (interpolateAcceleration_spec ⟨100, 0, 0⟩ ⟨fun _ _ => 1, fun _ _ => 1, 3, 3⟩).1
    (by norm_num [cellI, cellJ, gridX, gridZ, trunc])

/-! ### Drift theorem (C10) -/

/-- C10: after one `UpdatePositions` call every particle satisfies
-width/2 ≤ X ≤ width/2 and -height/2 ≤ Z ≤ height/2, whatever its prior
position and velocity; a coordinate drifting past a half-extent boundary
is set exactly to the opposite boundary value (the overshoot is
discarded, not wrapped modularly). -/
theorem updatePositions_bounds (particles : List Particle) (dt : ℚ) (width height : ℕ) :
    (∀ q ∈ UpdatePositions particles dt width height,
        -(width : ℚ) / 2 ≤ q.position.x ∧ q.position.x ≤ (width : ℚ) / 2 ∧
        -(height : ℚ) / 2 ≤ q.position.z ∧ q.position.z ≤ (height : ℚ) / 2) ∧
    (∀ p : Particle,
        (p.position.x + p.velocity.x * dt > (width : ℚ) / 2 →
          (updateParticle p dt width height).position.x = -(width : ℚ) / 2) ∧
        (p.position.x + p.velocity.x * dt < -(width : ℚ) / 2 →
          (updateParticle p dt width height).position.x = (width : ℚ) / 2) ∧
        (p.position.z + p.velocity.z * dt > (height : ℚ) / 2 →
          (updateParticle p dt width height).position.z = -(height : ℚ) / 2) ∧
        (p.position.z + p.velocity.z * dt < -(height : ℚ) / 2 →
          (updateParticle p dt width height).position.z = (height : ℚ) / 2)) := by
  have hw : (0 : ℚ) ≤ (width : ℚ) := Nat.cast_nonneg width
  have hh : (0 : ℚ) ≤ (height : ℚ) := Nat.cast_nonneg height
  constructor
  · intro q hq
    rw [UpdatePositions, List.mem_map] at hq
    obtain ⟨p, _, rfl⟩ := hq
    unfold updateParticle
    dsimp only
    split_ifs <;> refine ⟨?_, ?_, ?_, ?_⟩ <;> linarith
  · intro p
    unfold updateParticle
    dsimp only
    refine ⟨?_, ?_, ?_, ?_⟩ <;> intro h1 <;> split_ifs <;> first | rfl | linarith

/-- C10 witness: a particle at X = 10 on a 4-wide domain is clamped to the
opposite boundary X = -2 and lies inside the half extents. -/
theorem updatePositions_bounds_witness :
    (updateParticle ⟨⟨10, 0, 0⟩, ⟨0, 0, 0⟩, 1⟩ 1 4 4).position.x ≤ ((4 : ℕ) : ℚ) / 2 ∧
    (updateParticle ⟨⟨10, 0, 0⟩, ⟨0, 0, 0⟩, 1⟩ 1 4 4).position.x = -((4 : ℕ) : ℚ) / 2 :=
  ⟨((updatePositions_bounds [⟨⟨10, 0, 0⟩, ⟨0, 0, 0⟩, 1⟩] 1 4 4).1
      (updateParticle ⟨⟨10, 0, 0⟩, ⟨0, 0, 0⟩, 1⟩ 1 4 4)
      (by simp [UpdatePositions])).2.1,
    ((updatePositions_bounds [⟨⟨10, 0, 0⟩, ⟨0, 0, 0⟩, 1⟩] 1 4 4).2
      ⟨⟨10, 0, 0⟩, ⟨0, 0, 0⟩, 1⟩).1 (by norm_num)⟩

end RelSim
